import Mathlib

/-!
# Verification of the pso_tools archive utilities

Shallow embedding of the archive-manipulation code of the Sylverant
`pso_tools` repository (AFS/GSL/BML container tools and the PRS codec
front ends), together with proofs and refutations of the specification's
claims about it.

Conventions:
* bytes are `Nat` values (with `% 256` / `% 2^32` written out where the C
  code's fixed-width arithmetic can wrap);
* files are `List Nat` byte sequences;
* the C tools' fallible I/O primitives (`fopen`, `fread`, `fwrite`,
  `fseek`, `mkstemp`, `rename`, ...) are driven by an oracle `List Bool`
  telling each successive fallible call whether it succeeds (an exhausted
  oracle means every remaining call succeeds).
-/

namespace PsoTools

/-- Number of bytes the AFS tool reserves for the header + file table:
`create_afs` / `add_to_afs` / `update_afs` / `delete_from_afs`
(pso_artool/afs.c) all do `fseek(ofp, 0x80000, SEEK_SET)` before writing
the first payload, independent of the entry count. -/
def afs_table_size : Nat := 0x80000

/-- Cursor arithmetic of `pad_file` (pso_artool/afs.c lines 96-117,
identical copies in the GSL half of artool.c and in bmltool/bmltool.c):
if `boundary <= 0` the current position is returned unchanged; otherwise
the new position is `(pos & ~(boundary - 1)) + boundary` (the file is then
extended by writing one zero byte at `pos - 1`).  On a nonnegative `long`
cursor, `pos & ~(boundary - 1)` equals `pos - (pos &&& (boundary - 1))`,
which is how the complement mask is rendered on `Nat`. -/
def pad_file_pos (pos : Nat) (boundary : Int) : Nat :=
  if boundary ≤ 0 then pos
  else pos - (pos &&& (boundary.toNat - 1)) + boundary.toNat

/-- GSL table-region size as computed by `create_gsl` (artool.c:918), and
with `count + entries` resp. `entries` by `add_to_gsl` (artool.c:991),
`update_gsl` (artool.c:1075) and `delete_from_gsl` (artool.c:1159):
`hdrlen = ((count * 48) + 2048) & 0xFFFFF000`.  (The `uint32_t`
multiplication can wrap; the mask already clears every bit at or above
bit 32, so the wrap is absorbed by it.) -/
def gsl_hdrlen (count : Nat) : Nat := ((count * 48) % 4294967296 + 2048) &&& 0xFFFFF000

/-- Table-region size as the specification states it: `count * 48` rounded
up to the format's 2048-byte table-alignment boundary. -/
def gsl_hdrlen_claim (count : Nat) : Nat := ((count * 48 + 2047) / 2048) * 2048

/-- Truncation to 32 bits, for the C code's `uint32_t` casts and wrapping
arithmetic. -/
def u32 (n : Nat) : Nat := n % 4294967296

/-- Big-endian decode of the four bytes of a GSL table field, as in
`scan_gsl` (artool.c:413): `(buf[3]) | (buf[2] << 8) | (buf[1] << 16) |
(buf[0] << 24)`. -/
def gsl_be32 (b0 b1 b2 b3 : Nat) : Nat := b3 ||| (b2 <<< 8) ||| (b1 <<< 16) ||| (b0 <<< 24)

/-- Little-endian decode of the four bytes of a GSL table field, as in
`scan_gsl` (artool.c:419): `(buf[3] << 24) | (buf[2] << 16) | (buf[1] << 8)
| (buf[0])`. -/
def gsl_le32 (b0 b1 b2 b3 : Nat) : Nat := b0 ||| (b1 <<< 8) ||| (b2 <<< 16) ||| (b3 <<< 24)

/-- Endianness of a GSL archive (`GSL_BIG` / `GSL_LITTLE` in artool.c). -/
inductive GslEndian where
  | big
  | little
deriving DecidableEq, Repr

/-- The auto-endianness guess of `scan_gsl` (artool.c lines 410-430), run
on the first table entry's offset bytes while the mode is `GSL_AUTO`:
decode big-endian first and fail that guess when
`offset > (uint32_t)total || offset * 2048 > (uint32_t)total` (the product
wraps in `uint32_t`); then re-decode little-endian and report corruption
when `offset * 2048 > (uint32_t)total` still holds. -/
def gsl_detect (b0 b1 b2 b3 total : Nat) : Option (GslEndian × Nat) :=
  let offBE := gsl_be32 b0 b1 b2 b3
  if u32 total < offBE ∨ u32 total < u32 (offBE * 2048) then
    let offLE := gsl_le32 b0 b1 b2 b3
    if u32 total < u32 (offLE * 2048) then none
    else some (GslEndian.little, offLE)
  else some (GslEndian.big, offBE)

/-- Decode the 4-byte field of a GSL table at byte position `pos` of the
archive, using endianness `e` (the two arms of artool.c lines 431-436 and
445-450). -/
def gsl_u32_at (e : GslEndian) (file : List Nat) (pos : Nat) : Nat :=
  match e with
  | .big =>
      gsl_be32 (file.getD pos 0) (file.getD (pos + 1) 0)
        (file.getD (pos + 2) 0) (file.getD (pos + 3) 0)
  | .little =>
      gsl_le32 (file.getD pos 0) (file.getD (pos + 1) 0)
        (file.getD (pos + 2) 0) (file.getD (pos + 3) 0)

/-- One decoded GSL table entry: 32 name bytes, the (block-unit) offset
field and the size field. -/
structure GslEntry where
  name : List Nat
  offset : Nat
  size : Nat
deriving DecidableEq, Repr

/-- Failure modes of `scan_gsl`: a short read of the table, or the
"GSL file looks corrupt" bail-out of the auto-endianness guess. -/
inductive GslScanErr where
  | shortRead
  | corrupt
deriving DecidableEq, Repr

/-- The table-walking loop of `scan_gsl` (artool.c lines 387-479): read a
32-byte name (stop at a NUL first byte), read the 4 offset bytes (running
the auto-endianness guess if the mode is still unresolved), read the 4
size bytes with the resolved endianness, skip 8 padding bytes, and move to
the next 48-byte slot.  `fuel` bounds the recursion; the wrapper passes
more slots than the file can hold, so the fuel never runs out before a
short read does. -/
def gsl_scan_go (file : List Nat) (en : Option GslEndian) (pos : Nat) :
    Nat → Except GslScanErr (List GslEntry)
  | 0 => .error .shortRead
  | fuel + 1 =>
    if pos + 32 ≤ file.length then
      if file.getD pos 0 = 0 then .ok []
      else if pos + 40 ≤ file.length then
        match en with
        | none =>
          match gsl_detect (file.getD (pos + 32) 0) (file.getD (pos + 33) 0)
              (file.getD (pos + 34) 0) (file.getD (pos + 35) 0) file.length with
          | none => .error .corrupt
          | some (e, off) =>
            (gsl_scan_go file (some e) (pos + 48) fuel).map
              (⟨(file.drop pos).take 32, off, gsl_u32_at e file (pos + 36)⟩ :: ·)
        | some e =>
          (gsl_scan_go file (some e) (pos + 48) fuel).map
            (⟨(file.drop pos).take 32, gsl_u32_at e file (pos + 32),
              gsl_u32_at e file (pos + 36)⟩ :: ·)
      else .error .shortRead
    else .error .shortRead

/-- Model of `scan_gsl` over an in-memory file: walk the table from position 0.
`en = none` is the `GSL_AUTO` mode. -/
def gsl_scan (file : List Nat) (en : Option GslEndian) : Except GslScanErr (List GslEntry) :=
  gsl_scan_go file en 0 (file.length / 48 + 1)

/-! ## Oracle-driven model of the mutating operations

The tools' rebuild operations are sequences of fallible I/O calls.  The
embedding threads an oracle (`List Bool`) assigning each successive
fallible call its outcome; an exhausted oracle means every remaining call
succeeds.  The file system is reduced to what the claims are about: the
destination archive's bytes and whether the tool's temporary file
currently exists. -/

/-- Outcome oracle for the fallible C calls. -/
abbrev Oracle := List Bool

/-- Consume one oracle entry (an empty oracle yields success). -/
def take1 : Oracle → Bool × Oracle
  | [] => (true, [])
  | b :: r => (b, r)

/-- Visible file-system state: the destination archive and whether the
temporary file exists. -/
structure FS where
  dest : Option (List Nat)
  temp : Bool
deriving DecidableEq, Repr

/-- Result of one mutating operation: the C return value, the final file
system, and the outcome of the `rename` call (`none` when the operation
failed before reaching it). -/
structure RunOut where
  ret : Int
  fs : FS
  renamed : Option Bool
deriving DecidableEq, Repr

/-- Model of `copy_file` (afs.c lines 63-94, identical copies in the GSL half of
artool.c and in bmltool.c): copy `size` bytes in 512-byte chunks, each
chunk one fallible `fread` plus one fallible `fwrite`.  The C loop
performs `⌈size / 512⌉` read/write pairs in total (the final, possibly
short, chunk included); the recursion here is over that chunk count. -/
def copy_chunks : Nat → Oracle → Bool × Oracle
  | 0, o => (true, o)
  | n + 1, o =>
    let (r, o) := take1 o
    if !r then (false, o)
    else
      let (w, o) := take1 o
      if !w then (false, o) else copy_chunks n o

/-- Run of `copy_file` on a `size`-byte payload. -/
def copy_file_run (size : Nat) (o : Oracle) : Bool × Oracle :=
  copy_chunks ((size + 511) / 512) o

/-- The I/O of `pad_file` (afs.c lines 96-117): for a positive boundary,
one fallible `fseek` followed by one fallible one-byte `fwrite`. -/
def pad_file_run (boundary : Int) (o : Oracle) : Bool × Oracle :=
  if boundary ≤ 0 then (true, o)
  else
    let (s, o) := take1 o
    if !s then (false, o)
    else take1 o

/-- Model of `add_files_to_afs` (afs.c lines 216-301): for each input file, open
it, measure it with two seeks, write its 8-byte table row (offset
`wpos`, its size), seek to `wpos`, copy the payload, pad to 2048 and seek
back to the table.  On success, returns the recorded payload offsets and
the final write position. -/
def add_files_to_afs_run (files : List Nat) (fpos wpos : Nat) (o : Oracle) :
    Option (List Nat × Nat) × Oracle :=
  match files with
  | [] => (some ([], wpos), o)
  | size :: rest =>
    let (ok, o) := take1 o                -- fopen of the input file
    if !ok then (none, o) else
    let (ok, o) := take1 o                -- fseek SEEK_END
    if !ok then (none, o) else
    let (ok, o) := take1 o                -- fseek SEEK_SET
    if !ok then (none, o) else
    let (ok, o) := take1 o                -- fwrite of the 8-byte table row
    if !ok then (none, o) else
    let (ok, o) := take1 o                -- fseek to wpos
    if !ok then (none, o) else
    let (ok, o) := copy_file_run size o
    if !ok then (none, o) else
    let (ok, o) := pad_file_run 2048 o
    if !ok then (none, o) else
    let (ok, o) := take1 o                -- fseek back to the table
    if !ok then (none, o) else
    match add_files_to_afs_run rest (fpos + 8) (pad_file_pos (wpos + size) 2048) o with
    | (some (offs, w), o) => (some (wpos :: offs, w), o)
    | (none, o) => (none, o)

/-- Model of `create_afs` (afs.c lines 508-593): refuse more than 65535 files;
otherwise `mkstemp`, `fdopen`, write the 8-byte header, reserve the
0x80000-byte table region with two seeks, stream all files, and finally
`rename` the temporary file over the destination — the result of
`rename` is not checked.  Every error path unlinks the temporary file
and returns the nonzero code of the failing step.  `newBytes` stands for
the bytes of the rebuilt archive in the temporary file. -/
def create_afs_run (files : List Nat) (newBytes : List Nat) (o : Oracle) (fs : FS) : RunOut :=
  if 65535 < files.length then ⟨-14, fs, none⟩
  else
    let (ok, o) := take1 o                -- mkstemp
    if !ok then ⟨-1, fs, none⟩ else
    let fsT : FS := { fs with temp := true }
    let (ok, o) := take1 o                -- fdopen
    if !ok then ⟨-2, { fsT with temp := false }, none⟩ else
    let (ok, o) := take1 o                -- fwrite of the 8-byte header
    if !ok then ⟨-3, { fsT with temp := false }, none⟩ else
    let (ok, o) := take1 o                -- fseek to 0x80000
    if !ok then ⟨-4, { fsT with temp := false }, none⟩ else
    let (ok, o) := take1 o                -- fseek back to the table
    if !ok then ⟨-5, { fsT with temp := false }, none⟩ else
    match add_files_to_afs_run files 8 afs_table_size o with
    | (none, _) => ⟨-6, { fsT with temp := false }, none⟩
    | (some _, o) =>
      let (rok, _) := take1 o             -- rename; its result is ignored
      if rok then ⟨0, ⟨some newBytes, false⟩, some true⟩
      else ⟨0, fsT, some false⟩

/-- The per-file body of `add_files_to_gsl` (artool.c lines 486-638), as
invoked by `copy_update` for the single replacement file: open and
measure the input, write the name bytes, the zero padding of the name
slot and the 16-byte offset/size row, seek to the payload position, copy
the payload, pad to 2048, and seek back to the table. -/
def add_one_to_gsl_run (size : Nat) (o : Oracle) : Bool × Oracle :=
  let (ok, o) := take1 o                -- fopen of the input file
  if !ok then (false, o) else
  let (ok, o) := take1 o                -- fseek SEEK_END
  if !ok then (false, o) else
  let (ok, o) := take1 o                -- fseek SEEK_SET
  if !ok then (false, o) else
  let (ok, o) := take1 o                -- fwrite of the file name
  if !ok then (false, o) else
  let (ok, o) := take1 o                -- fwrite of the name-slot padding
  if !ok then (false, o) else
  let (ok, o) := take1 o                -- fwrite of the 16-byte row
  if !ok then (false, o) else
  let (ok, o) := take1 o                -- fseek to wpos
  if !ok then (false, o) else
  let (ok, o) := copy_file_run size o
  if !ok then (false, o) else
  let (ok, o) := pad_file_run 2048 o
  if !ok then (false, o) else
  take1 o                               -- fseek back to the table

/-- The table-walking I/O of `scan_gsl` (artool.c lines 387-479) over an
archive holding `entries` (name, payload size) pairs, with the per-entry
callback `cb`: per entry, read the 32-byte name, the offset field and
the size field, seek over the 8 padding bytes, seek to the payload, run
the callback and seek back; one final read hits the terminating empty
name slot. -/
def gsl_scan_run (cb : String → Nat → Oracle → Bool × Oracle) :
    List (String × Nat) → Oracle → Bool × Oracle
  | [], o => take1 o                     -- fread of the terminating name slot
  | (n, sz) :: rest, o =>
    let (ok, o) := take1 o               -- fread of the 32-byte name
    if !ok then (false, o) else
    let (ok, o) := take1 o               -- fread of the offset field
    if !ok then (false, o) else
    let (ok, o) := take1 o               -- fread of the size field
    if !ok then (false, o) else
    let (ok, o) := take1 o               -- fseek over the 8 padding bytes
    if !ok then (false, o) else
    let (ok, o) := take1 o               -- fseek to the payload
    if !ok then (false, o) else
    let (ok, o) := cb n sz o
    if !ok then (false, o) else
    let (ok, o) := take1 o               -- fseek back to the table
    if !ok then (false, o) else
    gsl_scan_run cb rest o

/-- The callback `copy_update` (artool.c lines 818-898) hands to
`scan_gsl` during `update_gsl`: an entry whose name matches the update
target is re-created from the replacement file via `add_files_to_gsl`;
any other entry has its 48-byte row rewritten and its payload copied
forward and padded. -/
def gsl_copy_update_cb_run (target : String) (newsize : Nat) (n : String) (sz : Nat)
    (o : Oracle) : Bool × Oracle :=
  if n = target then
    let (ok, o) := take1 o              -- fseek to the table row
    if !ok then (false, o) else
    add_one_to_gsl_run newsize o
  else
    let (ok, o) := take1 o              -- fseek to the table row
    if !ok then (false, o) else
    let (ok, o) := take1 o              -- fwrite of the 48-byte row
    if !ok then (false, o) else
    let (ok, o) := take1 o              -- fseek to wpos
    if !ok then (false, o) else
    let (ok, o) := copy_file_run sz o
    if !ok then (false, o) else
    pad_file_run 2048 o

/-- Model of `update_gsl` (artool.c lines 1051-1123): count the source's entries
with a callback-less scan, `mkstemp`, `fdopen`, reserve the table region
with two seeks, re-scan the source with the `copy_update` callback, and
`rename` the temporary file over the destination — the result of
`rename` is not checked.  Every error path unlinks the temporary file. -/
def update_gsl_run (target : String) (newsize : Nat) (entries : List (String × Nat))
    (newBytes : List Nat) (o : Oracle) (fs : FS) : RunOut :=
  let (ok, o) := gsl_scan_run (fun _ _ o => (true, o)) entries o
  if !ok then ⟨-11, fs, none⟩ else
  let (ok, o) := take1 o               -- mkstemp
  if !ok then ⟨-3, fs, none⟩ else
  let fsT : FS := { fs with temp := true }
  let (ok, o) := take1 o               -- fdopen
  if !ok then ⟨-4, { fsT with temp := false }, none⟩ else
  let (ok, o) := take1 o               -- fseek to hdrlen
  if !ok then ⟨-5, { fsT with temp := false }, none⟩ else
  let (ok, o) := take1 o               -- fseek back to the table
  if !ok then ⟨-6, { fsT with temp := false }, none⟩ else
  let (ok, o) := gsl_scan_run (gsl_copy_update_cb_run target newsize) entries o
  if !ok then ⟨-7, { fsT with temp := false }, none⟩ else
  let (rok, _) := take1 o              -- rename; its result is ignored
  if rok then ⟨0, ⟨some newBytes, false⟩, some true⟩
  else ⟨0, fsT, some false⟩

/-- Payload offsets recorded by `copy_file_cb` (afs.c lines 353-397)
while an existing archive's entries are copied forward: entry 0 is
forced to offset 0x80000 (`if(!i) wpos = 0x80000`), and each later entry
lands at the write position left by the previous entry's 2048-padding. -/
def afs_copy_offsets_from (wpos : Nat) : List Nat → List Nat
  | [] => []
  | sz :: rest => wpos :: afs_copy_offsets_from (pad_file_pos (wpos + sz) 2048) rest

/-- Offsets recorded by the `copy_file_cb` pass over an archive whose
entries have the given sizes. -/
def copy_file_cb_offsets (sizes : List Nat) : List Nat :=
  afs_copy_offsets_from afs_table_size sizes

/-- Write position left behind by the `copy_file_cb` pass: the padded end
of the last copied payload (each callback ends with `pad_file`, which
leaves the stream at the padded position). -/
def afs_copy_end_from (wpos : Nat) : List Nat → Nat
  | [] => wpos
  | sz :: rest => afs_copy_end_from (pad_file_pos (wpos + sz) 2048) rest

/-- Write position `add_to_afs` adopts for the appended files:
`wpos = ftell(ofp)` right after the copy scan (afs.c:654).  With at least
one copied entry this is the padded end of the last copied payload; but
when the source archive has zero entries `copy_file_cb` never runs, and
`ftell(ofp)` still reports the table position 8 set by the
`fseek(ofp, fpos)` at afs.c:633. -/
def add_to_afs_wpos_after_scan (sizes : List Nat) : Nat :=
  if sizes = [] then 8 else afs_copy_end_from afs_table_size sizes

/-- All payload offsets recorded by `add_to_afs` (afs.c lines 595-706):
the copy-forward offsets of the source's entries, followed by the
appended files' offsets laid out by `add_files_to_afs` from the
post-scan write position. -/
def add_to_afs_offsets (sizes newSizes : List Nat) : List Nat :=
  copy_file_cb_offsets sizes ++
    afs_copy_offsets_from (add_to_afs_wpos_after_scan sizes) newSizes

/-! ## Entry-level model of the GSL update rebuild -/

/-- One named GSL archive member. -/
structure GslFile where
  name : String
  payload : List Nat
deriving DecidableEq, Repr

/-- The entries of the rebuilt archive produced by `update_gsl` via the
`copy_update` callback (artool.c lines 818-898): every scanned entry
whose name equals the update target is replaced by the new file (at its
old position in the table), every other entry is copied forward
unchanged.  There is no first-match flag in this tool: every matching
occurrence is replaced. -/
def gsl_update_entries_artool (target : String) (newEnt : GslFile) (es : List GslFile) :
    List GslFile :=
  es.map fun e => if e.name = target then newEnt else e

/-- The entries of the rebuilt archive produced by `gsl_update` in the
libpsoarchive-based tool (src/unnamed/part_001 lines 315-433): the
`replace` flag makes only the first entry whose name matches the target
be replaced; everything else is copied forward unchanged. -/
def gsl_update_entries_lib (target : String) (newEnt : GslFile) : List GslFile → List GslFile
  | [] => []
  | e :: rest =>
    if e.name = target then newEnt :: rest
    else e :: gsl_update_entries_lib target newEnt rest

/-! ## BML extraction and the PRSD key handling -/

/-- One 64-byte BML table entry (bmltool.c lines 43-51): name, compressed
and uncompressed sizes, the preserved unknown field, and the attached
PVM sub-resource's compressed and uncompressed sizes (0 = no PVM). -/
structure BmlEntry where
  filename : String
  csize : Nat
  unk : Nat
  usize : Nat
  pvm_csize : Nat
  pvm_usize : Nat
deriving DecidableEq, Repr

/-- The files written by `extract_file` (bmltool.c lines 260-321) for one
entry of the archive `file`: `<name>.prs` receives `csize` bytes from
`offset`; when a PVM is attached (`pvm_csize != 0`), `<name>.pvm.prs`
receives the bytes starting at `poffset` — but the copy at line 311 is
`copy_file(ofp, fp, ent->csize)`, i.e. `csize` bytes, not
`pvm_csize`. -/
def bml_extract_outputs (file : List Nat) (ent : BmlEntry) (offset poffset : Nat) :
    List (String × List Nat) :=
  let main := (ent.filename ++ ".prs", (file.drop offset).take ent.csize)
  if ent.pvm_csize ≠ 0 then
    [main, (ent.filename ++ ".pvm.prs", (file.drop poffset).take ent.csize)]
  else [main]

/-- The byte counts `decompress_file` (bmltool.c lines 393-413) reads for
the same entry: `read_and_dec(fp, offset, ent->csize, ...)` and, with a
PVM attached, `read_and_dec(fp, poffset, ent->pvm_csize, ...)` — this
sibling of `extract_file` does use `pvm_csize`. -/
def bml_decompress_read_sizes (ent : BmlEntry) : List Nat :=
  if ent.pvm_csize ≠ 0 then [ent.csize, ent.pvm_csize] else [ent.csize]

/-- How the `-c` branch of `prsd()` (pso_artool/prsd.c lines 85-113)
handles the compression key. -/
structure PrsdKeyUse where
  key : Nat
  keyPassed : Nat
  keyReported : Bool
deriving DecidableEq, Repr

/-- Embedding of prsd.c's `-c` branch: the `key` variable is set from the explicit
sixth argument (`strtoul` into a `uint32_t`) when present, else from
`rand()`; but the call at line 104 is
`pso_prsd_compress(src, &dst, sz, 0xfeedface, endian)` — the literal
`0xfeedface` is passed, `key` is never used, and no statement in
`prsd()` prints the key. -/
def prsd_key_use (userKey : Option Nat) (randVal : Nat) : PrsdKeyUse :=
  { key := match userKey with
           | some k => u32 k
           | none => randVal
  , keyPassed := 0xfeedface
  , keyReported := false }

/-! ## The PRS compression codec, modelled from the spec

The PRS compressor/decompressor proper (`prs-comp.c` / `prs-decomp.c`,
referenced by the bmltool Makefile, declared in `prs.h`, and reached
through libpsoarchive's `pso_prs_*` / `pso_prsd_*` entry points) is not
among the provided source files; only its header and its callers are.
The codec below is therefore modelled from the specification's words: a
sliding-window LZ-style scheme producing a packed stream of
control-flag-plus-literal/backreference tokens, self-describing,
deterministic, with a keyed variant that additionally XOR-obscures the
stream from a numeric key. -/

/-- Modelled from the spec: one token of the LZ token stream — a literal
byte, or a backreference of `len` bytes starting `dist` positions back in
the already-produced output. -/
inductive PrsToken where
  | lit (b : Nat)
  | ref (dist len : Nat)
deriving DecidableEq, Repr

/-- Modelled from the spec: length of the match at back-distance `d` —
how many upcoming bytes are reproduced by copying, byte after byte, from
`d` positions before the end of the (growing) output, exactly as the
decompressor's backreference copy would (self-overlapping matches
allowed, as in any LZ77-family scheme). -/
def matchLenAt : List Nat → Nat → List Nat → Nat
  | _, _, [] => 0
  | out, d, b :: rest =>
    if out.getD (out.length - d) 0 = b then 1 + matchLenAt (out ++ [b]) d rest
    else 0

/-- Modelled from the spec: the decompressor's backreference copy —
append `l` bytes, each read `d` positions back from the end of the
growing output. -/
def copyFrom : List Nat → Nat → Nat → List Nat
  | out, _, 0 => out
  | out, d, l + 1 => copyFrom (out ++ [out.getD (out.length - d) 0]) d l

/-- Modelled from the spec: search all window distances `1..D` for the
longest match, keeping the smallest distance on ties. -/
def bestMatchGo (out rest : List Nat) : Nat → Nat × Nat
  | 0 => (0, 0)
  | d + 1 =>
    let l := matchLenAt out (d + 1) rest
    let p := bestMatchGo out rest d
    if p.2 < l then (d + 1, l) else p

/-- Modelled from the spec: best match for the upcoming bytes within the
sliding window (at most 8192 bytes back). -/
def prsFindMatch (out rest : List Nat) : Nat × Nat :=
  bestMatchGo out rest (min out.length 8192)

/-- Modelled from the spec: the compression loop — at each step emit a
backreference token for the best window match when it saves space (at
least 2 bytes long, capped at the 255-byte token limit), otherwise a
literal token.  `fuel` only drives the structural recursion: every step
consumes at least one input byte, so `fuel = input length` never runs
out (and the fallback emits plain literals, preserving correctness). -/
def compressGo : Nat → List Nat → List Nat → List PrsToken
  | _, _, [] => []
  | 0, _, b :: rest => (b :: rest).map .lit
  | f + 1, out, b :: rest =>
    let m := prsFindMatch out (b :: rest)
    let lu := min m.2 255
    if 2 ≤ lu then
      .ref m.1 lu :: compressGo f (out ++ (b :: rest).take lu) ((b :: rest).drop lu)
    else
      .lit b :: compressGo f (out ++ [b]) rest

/-- Modelled from the spec: the decompressor's token interpreter —
literals are appended, a backreference must point inside the produced
output (else the stream is corrupt) and is copied byte after byte. -/
def detokens (out : List Nat) : List PrsToken → Option (List Nat)
  | [] => some out
  | .lit b :: ts => detokens (out ++ [b]) ts
  | .ref d l :: ts =>
    if 1 ≤ d ∧ d ≤ out.length then detokens (copyFrom out d l) ts else none

/-- Modelled from the spec: serialize one token — a control flag byte
(1 = literal, 2 = backreference) followed by the token's payload; the
backreference distance spans two bytes (window ≤ 8192), its length one. -/
def encodeToken : PrsToken → List Nat
  | .lit b => [1, b]
  | .ref d l => [2, d % 256, d / 256, l]

/-- Modelled from the spec: the self-describing compressed stream — the
serialized tokens followed by the end-of-stream control byte 0. -/
def encodeTokens : List PrsToken → List Nat
  | [] => [0]
  | t :: ts => encodeToken t ++ encodeTokens ts

/-- Modelled from the spec: parse the compressed stream back into
tokens, stopping at the end-of-stream control byte and failing cleanly
on any non-conforming input.  `fuel` drives the recursion; every token
consumes at least one input byte. -/
def decodeGo : Nat → List Nat → Option (List PrsToken)
  | 0, _ => none
  | _ + 1, 0 :: _ => some []
  | f + 1, 1 :: b :: rest => (decodeGo f rest).map (.lit b :: ·)
  | f + 1, 2 :: dl :: dh :: l :: rest => (decodeGo f rest).map (.ref (dl + 256 * dh) l :: ·)
  | _ + 1, _ => none

/-- Modelled from the spec: `compress` — tokenize the input with the
sliding-window match search and serialize the tokens. -/
def prs_compress (x : List Nat) : List Nat :=
  encodeTokens (compressGo x.length [] x)

/-- Modelled from the spec: `decompress` — parse the token stream and
interpret it, failing cleanly on corrupt input. -/
def prs_decompress (y : List Nat) : Option (List Nat) :=
  (decodeGo y.length y).bind (detokens [])

/-- Modelled from the spec: the keyed variant's XOR keystream, one byte
per stream position, generated deterministically from the numeric key
(a 32-bit linear-congruential schedule). -/
def prc_next_key (k : Nat) : Nat := (k * 1103515245 + 12345) % 4294967296

/-- Modelled from the spec: `n` keystream bytes derived from `key`. -/
def prc_keystream (key : Nat) : Nat → List Nat
  | 0 => []
  | n + 1 => key % 256 :: prc_keystream (prc_next_key key) n

/-- Modelled from the spec: keyed (PRSD/PRC) compression — the PRS
stream XOR-obscured with the key's keystream. -/
def prc_compress (key : Nat) (x : List Nat) : List Nat :=
  List.zipWith Nat.xor (prc_keystream key (prs_compress x).length) (prs_compress x)

/-- Modelled from the spec: keyed decompression — un-XOR with the same
key's keystream, then decompress. -/
def prc_decompress (key : Nat) (y : List Nat) : Option (List Nat) :=
  prs_decompress (List.zipWith Nat.xor (prc_keystream key y.length) y)

end PsoTools

namespace PsoTools

/-! ## Helper lemmas -/

/-- The `pad_file` arithmetic at a power-of-two boundary rounds to the next
strictly greater multiple. -/
theorem pad_file_pos_pow (pos k : Nat) :
    pad_file_pos pos ((2 : Int) ^ k) = (pos / 2 ^ k + 1) * 2 ^ k := by
  have hpow : (0 : Int) < 2 ^ k := by positivity
  have hble : ¬ ((2 : Int) ^ k) ≤ 0 := by omega
  have htn : ((2 : Int) ^ k).toNat = 2 ^ k := by
    rw [show ((2 : Int) ^ k) = ((2 ^ k : Nat) : Int) by push_cast; ring]
    exact Int.toNat_natCast _
  have hmask : pos &&& (2 ^ k - 1) = pos % 2 ^ k :=
    Nat.and_pow_two_sub_one_eq_mod pos k
  have hdm : 2 ^ k * (pos / 2 ^ k) + pos % 2 ^ k = pos := Nat.div_add_mod pos (2 ^ k)
  rw [pad_file_pos, if_neg hble, htn, hmask]
  have hsub : pos - pos % 2 ^ k = 2 ^ k * (pos / 2 ^ k) := by omega
  rw [hsub]
  ring

/-- The `pad_file` arithmetic at boundary 2048 always advances the cursor. -/
theorem lt_pad_file_pos_2048 (pos : Nat) : pos < pad_file_pos pos 2048 := by
  have h : (2048 : Int) = 2 ^ 11 := by norm_num
  rw [h, pad_file_pos_pow]
  have h1 := Nat.div_add_mod pos 2048
  have h2 : pos % 2048 < 2048 := Nat.mod_lt _ (by norm_num)
  norm_num
  omega

/-- C5, refutation: at a position already on the boundary the code does
not return the position unchanged; `pad_file` at position 2048 with
boundary 2048 moves the cursor to 4096 (`(2048 & ~2047) + 2048`), not to
the least multiple of 2048 that is ≥ 2048 (which is 2048 itself). -/
theorem pad_file_pos_already_aligned :
    pad_file_pos 2048 2048 = 4096 ∧ pad_file_pos 2048 2048 ≠ 2048 := by
  constructor
  · decide
  · decide

/-- C5, amended: `pad_file` returns the position unchanged for
`boundary ≤ 0`; for a power-of-two boundary (the tools only ever pass
2048) it returns the least multiple of the boundary that is *strictly
greater* than the current position — a position already on the boundary
is advanced by a whole extra boundary. -/
theorem pad_file_pos_spec (pos : Nat) (b : Int) (k : Nat) :
    (b ≤ 0 → pad_file_pos pos b = pos) ∧
    (b = (2 : Int) ^ k →
      pad_file_pos pos b = (pos / 2 ^ k + 1) * 2 ^ k ∧
      pos < (pos / 2 ^ k + 1) * 2 ^ k ∧
      ∀ m : Nat, pos < m * 2 ^ k → (pos / 2 ^ k + 1) * 2 ^ k ≤ m * 2 ^ k) := by
  constructor
  · intro hb
    simp [pad_file_pos, hb]
  · intro hb
    have hpow : (0 : Int) < 2 ^ k := by positivity
    have hble : ¬ b ≤ 0 := by omega
    have htn : b.toNat = 2 ^ k := by
      subst hb
      rw [show ((2 : Int) ^ k) = ((2 ^ k : Nat) : Int) by push_cast; ring]
      exact Int.toNat_natCast _
    have hK : 0 < 2 ^ k := Nat.pos_pow_of_pos k (by omega)
    have hmask : pos &&& (2 ^ k - 1) = pos % 2 ^ k :=
      Nat.and_pow_two_sub_one_eq_mod pos k
    have hdm : 2 ^ k * (pos / 2 ^ k) + pos % 2 ^ k = pos := Nat.div_add_mod pos (2 ^ k)
    have hr : pos % 2 ^ k < 2 ^ k := Nat.mod_lt _ hK
    have hval : pad_file_pos pos b = (pos / 2 ^ k + 1) * 2 ^ k := by
      rw [pad_file_pos, if_neg hble, htn, hmask]
      have : pos - pos % 2 ^ k = 2 ^ k * (pos / 2 ^ k) := by omega
      rw [this]
      ring
    refine ⟨hval, ?_, ?_⟩
    · have : (pos / 2 ^ k + 1) * 2 ^ k = 2 ^ k * (pos / 2 ^ k) + 2 ^ k := by ring
      omega
    · intro m hm
      have hqm : pos / 2 ^ k < m := (Nat.div_lt_iff_lt_mul hK).mpr hm
      exact Nat.mul_le_mul_right _ hqm

/-- C4: under `GSL_AUTO`, `scan_gsl` decodes the first entry's offset
field big-endian and checks it against the file length; when that check
fails it re-decodes little-endian; when the little-endian value is also
out of range the scan fails with the corruption error; and in either
passing case the whole scan proceeds exactly as it would with that
endianness fixed from the start. -/
theorem gsl_scan_auto_detect (file : List Nat)
    (hlen : 40 ≤ file.length) (hname : file.getD 0 0 ≠ 0) :
    (¬ (u32 file.length < gsl_be32 (file.getD 32 0) (file.getD 33 0) (file.getD 34 0)
          (file.getD 35 0) ∨
        u32 file.length < u32 (gsl_be32 (file.getD 32 0) (file.getD 33 0) (file.getD 34 0)
          (file.getD 35 0) * 2048)) →
      gsl_scan file none = gsl_scan file (some .big)) ∧
    ((u32 file.length < gsl_be32 (file.getD 32 0) (file.getD 33 0) (file.getD 34 0)
          (file.getD 35 0) ∨
      u32 file.length < u32 (gsl_be32 (file.getD 32 0) (file.getD 33 0) (file.getD 34 0)
          (file.getD 35 0) * 2048)) →
      ¬ u32 file.length < u32 (gsl_le32 (file.getD 32 0) (file.getD 33 0) (file.getD 34 0)
          (file.getD 35 0) * 2048) →
      gsl_scan file none = gsl_scan file (some .little)) ∧
    ((u32 file.length < gsl_be32 (file.getD 32 0) (file.getD 33 0) (file.getD 34 0)
          (file.getD 35 0) ∨
      u32 file.length < u32 (gsl_be32 (file.getD 32 0) (file.getD 33 0) (file.getD 34 0)
          (file.getD 35 0) * 2048)) →
      u32 file.length < u32 (gsl_le32 (file.getD 32 0) (file.getD 33 0) (file.getD 34 0)
          (file.getD 35 0) * 2048) →
      gsl_scan file none = .error .corrupt) := by
  have h32 : 0 + 32 ≤ file.length := by omega
  have h40 : 0 + 40 ≤ file.length := by omega
  refine ⟨?_, ?_, ?_⟩
  · intro hgood
    show gsl_scan_go file none 0 (file.length / 48 + 1) =
      gsl_scan_go file (some .big) 0 (file.length / 48 + 1)
    rw [gsl_scan_go, gsl_scan_go, if_pos h32, if_pos h32, if_neg hname, if_neg hname,
      if_pos h40, if_pos h40, gsl_detect]
    simp only [if_neg hgood]
    norm_num [gsl_u32_at]
  · intro hbad hle
    show gsl_scan_go file none 0 (file.length / 48 + 1) =
      gsl_scan_go file (some .little) 0 (file.length / 48 + 1)
    rw [gsl_scan_go, gsl_scan_go, if_pos h32, if_pos h32, if_neg hname, if_neg hname,
      if_pos h40, if_pos h40, gsl_detect]
    simp only [if_pos hbad, if_neg hle]
    norm_num [gsl_u32_at]
  · intro hbad hle
    show gsl_scan_go file none 0 (file.length / 48 + 1) = .error .corrupt
    rw [gsl_scan_go, if_pos h32, if_neg hname, if_pos h40, gsl_detect]
    simp only [if_pos hbad, if_pos hle]

/-- Witness for `pad_file_pos_spec`: at position 100 with boundary 2048
(= 2^11) the padded position is 2048, the next strictly greater multiple. -/
theorem pad_file_pos_spec_witness :
    pad_file_pos 100 2048 = 2048 ∧ (100 : Nat) < 2048 :=
  have h := (pad_file_pos_spec 100 2048 11).2 (by norm_num)
  ⟨by simpa using h.1, by norm_num⟩

/-- Witness for `gsl_scan_auto_detect`: a 48-byte single-slot table whose
name starts with byte 1 and whose offset field is zero passes the
big-endian check, so the auto scan equals the big-endian scan. -/
theorem gsl_scan_auto_detect_witness :
    gsl_scan (1 :: List.replicate 47 0) none =
      gsl_scan (1 :: List.replicate 47 0) (some GslEndian.big) :=
  (gsl_scan_auto_detect (1 :: List.replicate 47 0) (by simp) (by simp)).1 (by decide)

/-- C3: the failing input.  `create_gsl` with one input file computes
`hdrlen = ((1 * 48) + 2048) & 0xFFFFF000 = 0`: no table region is
reserved at all (the payload is then written over the table at offset 0),
while the comment above the computation ("I just round it up to the next
multiple of 2048") and the claim call for 2048.  The mask keeps a multiple
of 4096, not of 2048. -/
theorem gsl_hdrlen_bug_at_one :
    gsl_hdrlen 1 = 0 ∧ gsl_hdrlen_claim 1 = 2048 ∧
      gsl_hdrlen 42 = 0 ∧ gsl_hdrlen 43 = 4096 ∧ gsl_hdrlen 128 ≠ gsl_hdrlen_claim 128 := by
  refine ⟨by decide, by decide, by decide, by decide, by decide⟩

/-! ## Runs on the empty oracle (every fallible call succeeds) -/

theorem copy_chunks_nil (n : Nat) : copy_chunks n [] = (true, []) := by
  induction n with
  | zero => rfl
  | succ n ih => simp [copy_chunks, take1, ih]

theorem copy_file_run_nil (size : Nat) : copy_file_run size [] = (true, []) := by
  simp [copy_file_run, copy_chunks_nil]

theorem pad_file_run_nil : pad_file_run 2048 [] = (true, []) := by
  norm_num [pad_file_run, take1]

theorem add_one_to_gsl_run_nil (size : Nat) : add_one_to_gsl_run size [] = (true, []) := by
  simp [add_one_to_gsl_run, take1, copy_file_run_nil, pad_file_run_nil]

theorem gsl_copy_update_cb_run_nil (target : String) (ns : Nat) (n : String) (sz : Nat) :
    gsl_copy_update_cb_run target ns n sz [] = (true, []) := by
  by_cases h : n = target <;>
    simp [gsl_copy_update_cb_run, h, take1, add_one_to_gsl_run_nil, copy_file_run_nil,
      pad_file_run_nil]

theorem gsl_scan_run_nil (cb : String → Nat → Oracle → Bool × Oracle)
    (hcb : ∀ n sz, cb n sz [] = (true, [])) (ents : List (String × Nat)) :
    gsl_scan_run cb ents [] = (true, []) := by
  induction ents with
  | nil => rfl
  | cons p rest ih => simp [gsl_scan_run, take1, hcb, ih]

/-- Case analysis of a `create_afs` run: either some step before the
rename failed (nonzero return, destination untouched, temporary file
removed), or everything up to the rename succeeded and the return is 0 —
with the destination replaced when the rename succeeded and untouched,
the temporary file orphaned, when it failed. -/
theorem create_afs_run_shape (files newBytes : List Nat) (o : Oracle) (d : Option (List Nat)) :
    (∃ c : Int, c ≠ 0 ∧ create_afs_run files newBytes o ⟨d, false⟩ = ⟨c, ⟨d, false⟩, none⟩) ∨
    create_afs_run files newBytes o ⟨d, false⟩ = ⟨0, ⟨some newBytes, false⟩, some true⟩ ∨
    create_afs_run files newBytes o ⟨d, false⟩ = ⟨0, ⟨d, true⟩, some false⟩ := by
  generalize hr : create_afs_run files newBytes o ⟨d, false⟩ = r
  rw [create_afs_run] at hr
  repeat' split at hr
  all_goals subst hr
  all_goals first
    | (left; exact ⟨-14, by norm_num, rfl⟩)
    | (left; exact ⟨-1, by norm_num, rfl⟩)
    | (left; exact ⟨-2, by norm_num, rfl⟩)
    | (left; exact ⟨-3, by norm_num, rfl⟩)
    | (left; exact ⟨-4, by norm_num, rfl⟩)
    | (left; exact ⟨-5, by norm_num, rfl⟩)
    | (left; exact ⟨-6, by norm_num, rfl⟩)
    | (right; left; rfl)
    | (right; right; rfl)

/-- Case analysis of an `update_gsl` run, in the same three shapes as
`create_afs_run_shape`. -/
theorem update_gsl_run_shape (target : String) (newsize : Nat)
    (entries : List (String × Nat)) (newBytes : List Nat) (o : Oracle)
    (d : Option (List Nat)) :
    (∃ c : Int, c ≠ 0 ∧
      update_gsl_run target newsize entries newBytes o ⟨d, false⟩ = ⟨c, ⟨d, false⟩, none⟩) ∨
    update_gsl_run target newsize entries newBytes o ⟨d, false⟩ =
      ⟨0, ⟨some newBytes, false⟩, some true⟩ ∨
    update_gsl_run target newsize entries newBytes o ⟨d, false⟩ = ⟨0, ⟨d, true⟩, some false⟩ := by
  generalize hr : update_gsl_run target newsize entries newBytes o ⟨d, false⟩ = r
  rw [update_gsl_run] at hr
  repeat' split at hr
  all_goals subst hr
  all_goals first
    | (left; exact ⟨-11, by norm_num, rfl⟩)
    | (left; exact ⟨-3, by norm_num, rfl⟩)
    | (left; exact ⟨-4, by norm_num, rfl⟩)
    | (left; exact ⟨-5, by norm_num, rfl⟩)
    | (left; exact ⟨-6, by norm_num, rfl⟩)
    | (left; exact ⟨-7, by norm_num, rfl⟩)
    | (right; left; rfl)
    | (right; right; rfl)

/-- C1, amended: for `create_afs` and `update_gsl`, a failure at any step
before the rename deletes the temporary file, leaves the destination
untouched and returns nonzero; a successful rename replaces the
destination with the rebuilt archive; but the rename's own result is not
checked, so once every step before it has succeeded the operation
returns 0 even when the rename fails (in which case the destination is
untouched and the temporary file is left behind). -/
theorem rebuild_rename_atomicity (files : List Nat) (target : String) (newsize : Nat)
    (entries : List (String × Nat)) (newBytes : List Nat) (o o2 : Oracle) (fs : FS)
    (hft : fs.temp = false) :
    ((create_afs_run files newBytes o fs).ret ≠ 0 →
        (create_afs_run files newBytes o fs).fs = fs ∧
        (create_afs_run files newBytes o fs).renamed = none) ∧
    ((create_afs_run files newBytes o fs).renamed = some false →
        (create_afs_run files newBytes o fs).ret = 0 ∧
        (create_afs_run files newBytes o fs).fs.dest = fs.dest ∧
        (create_afs_run files newBytes o fs).fs.temp = true) ∧
    ((create_afs_run files newBytes o fs).renamed = some true →
        (create_afs_run files newBytes o fs).ret = 0 ∧
        (create_afs_run files newBytes o fs).fs = ⟨some newBytes, false⟩) ∧
    ((update_gsl_run target newsize entries newBytes o2 fs).ret ≠ 0 →
        (update_gsl_run target newsize entries newBytes o2 fs).fs = fs ∧
        (update_gsl_run target newsize entries newBytes o2 fs).renamed = none) ∧
    ((update_gsl_run target newsize entries newBytes o2 fs).renamed = some false →
        (update_gsl_run target newsize entries newBytes o2 fs).ret = 0 ∧
        (update_gsl_run target newsize entries newBytes o2 fs).fs.dest = fs.dest ∧
        (update_gsl_run target newsize entries newBytes o2 fs).fs.temp = true) ∧
    ((update_gsl_run target newsize entries newBytes o2 fs).renamed = some true →
        (update_gsl_run target newsize entries newBytes o2 fs).ret = 0 ∧
        (update_gsl_run target newsize entries newBytes o2 fs).fs = ⟨some newBytes, false⟩) := by
  obtain ⟨d, t⟩ := fs
  replace hft : t = false := hft
  subst hft
  rcases create_afs_run_shape files newBytes o d with ⟨c, hc, h1⟩ | h1 | h1 <;>
    rcases update_gsl_run_shape target newsize entries newBytes o2 d with
      ⟨c2, hc2, h2⟩ | h2 | h2 <;>
    rw [h1, h2] <;> refine ⟨?_, ?_, ?_, ?_, ?_, ?_⟩ <;> simp_all

/-- Witness for `rebuild_rename_atomicity`: `create_afs` with one
zero-length input whose `mkstemp` fails leaves the (absent) destination
untouched and reports the failure. -/
theorem rebuild_rename_atomicity_witness :
    (create_afs_run [0] [] [false] ⟨none, false⟩).fs = ⟨none, false⟩ ∧
    (create_afs_run [0] [] [false] ⟨none, false⟩).renamed = none :=
  (rebuild_rename_atomicity [0] "a" 0 [] [] [false] [] ⟨none, false⟩ rfl).1 (by decide)

/-- C1, refutation: a `create_afs` run of one empty input file in which
every step succeeds except the final `rename` itself (the 14th fallible
call).  The code does not check `rename`'s result: the run returns 0
("committed") although the destination still holds its old bytes `[7]`
and the temporary file is left behind. -/
theorem create_afs_run_rename_unchecked :
    create_afs_run [0] [] (List.replicate 13 true ++ [false]) ⟨some [7], false⟩ =
      ⟨0, ⟨some [7], true⟩, some false⟩ := by decide

/-- C8: `create_afs` with more than 65535 input files returns -14 before
creating the temporary file; the file system (in particular the
destination path) is untouched. -/
theorem create_afs_capacity (files newBytes : List Nat) (o : Oracle) (fs : FS)
    (h : 65535 < files.length) :
    (create_afs_run files newBytes o fs).ret = -14 ∧
      (create_afs_run files newBytes o fs).fs = fs ∧
      (create_afs_run files newBytes o fs).renamed = none := by
  rw [create_afs_run, if_pos h]
  exact ⟨rfl, rfl, rfl⟩

/-- Witness for `create_afs_capacity` at 65536 input files. -/
theorem create_afs_capacity_witness :
    (create_afs_run (List.replicate 65536 0) [] [] ⟨none, false⟩).ret = -14 ∧
      (create_afs_run (List.replicate 65536 0) [] [] ⟨none, false⟩).fs = ⟨none, false⟩ ∧
      (create_afs_run (List.replicate 65536 0) [] [] ⟨none, false⟩).renamed = none :=
  create_afs_capacity _ _ _ _ (by norm_num)

/-- The offsets a successful `add_files_to_afs` pass records are exactly
the pad-and-advance recurrence from its starting write position. -/
theorem add_files_to_afs_run_offsets (files : List Nat) :
    ∀ fpos wpos o offs w o2,
      add_files_to_afs_run files fpos wpos o = (some (offs, w), o2) →
      offs = afs_copy_offsets_from wpos files := by
  induction files with
  | nil =>
    intro fpos wpos o offs w o2 h
    rw [add_files_to_afs_run] at h
    simp only [Prod.mk.injEq, Option.some.injEq] at h
    simp [afs_copy_offsets_from, ← h.1.1]
  | cons sz rest ih =>
    intro fpos wpos o offs w o2 h
    rw [add_files_to_afs_run] at h
    repeat' split at h
    all_goals simp only [Prod.mk.injEq, Option.some.injEq, reduceCtorEq, false_and] at h
    all_goals rename_i hrec
    all_goals rw [afs_copy_offsets_from, ← h.1.1, ih _ _ _ _ _ _ hrec]

/-- Every offset of the pad-and-advance recurrence stays at or above the
starting position. -/
theorem afs_copy_offsets_from_ge (lo : Nat) (sizes : List Nat) :
    ∀ wpos, lo ≤ wpos → ∀ x ∈ afs_copy_offsets_from wpos sizes, lo ≤ x := by
  induction sizes with
  | nil => simp [afs_copy_offsets_from]
  | cons sz rest ih =>
    intro wpos hw x hx
    rw [afs_copy_offsets_from] at hx
    rcases List.mem_cons.mp hx with rfl | hx
    · exact hw
    · refine ih _ ?_ x hx
      calc lo ≤ wpos := hw
        _ ≤ wpos + sz := Nat.le_add_right _ _
        _ ≤ pad_file_pos (wpos + sz) 2048 := le_of_lt (lt_pad_file_pos_2048 _)

/-- The padded end of a copy-forward pass never falls below its starting
position. -/
theorem afs_copy_end_from_ge (lo : Nat) (sizes : List Nat) :
    ∀ wpos, lo ≤ wpos → lo ≤ afs_copy_end_from wpos sizes := by
  induction sizes with
  | nil => intro wpos hw; exact hw
  | cons sz rest ih =>
    intro wpos hw
    rw [afs_copy_end_from]
    refine ih _ ?_
    calc lo ≤ wpos := hw
      _ ≤ wpos + sz := Nat.le_add_right _ _
      _ ≤ pad_file_pos (wpos + sz) 2048 := le_of_lt (lt_pad_file_pos_2048 _)

/-- C10, refutation: appending to an AFS archive that holds zero entries
(a legitimate archive — an explicit count-0 header — and exactly what
this tool's own delete operation leaves when every entry is removed):
`add_to_afs` takes `wpos = ftell(ofp)` after the copy scan (afs.c:654),
but with no entries `copy_file_cb` never ran and the position is still
the table position 8 from the seek at afs.c:633, so the appended payload
is recorded at offset 8, far below the claimed 0x80000 floor. -/
theorem add_to_afs_empty_source_offset :
    add_to_afs_offsets [] [5] = [8] ∧ ¬ (0x80000 ≤ (8 : Nat)) := by
  exact ⟨by decide, by decide⟩

/-- C10, amended: the AFS writers reserve the fixed 0x80000-byte
header/table region regardless of entry count; a successful `create_afs`
streaming pass records its first payload at offset 0x80000 and every
recorded offset ≥ 0x80000; the `copy_file_cb` copy-forward pass does the
same; and `add_to_afs` keeps every recorded offset ≥ 0x80000 whenever
the source archive has at least one entry — but because it re-reads its
write position from `ftell` after the copy scan, appending to a
zero-entry source records the first new payload at offset 8, inside the
table region. -/
theorem afs_payload_offsets_invariant (files : List Nat) (o o2 : Oracle)
    (offs : List Nat) (w : Nat) (sizes newSizes : List Nat)
    (h : add_files_to_afs_run files 8 afs_table_size o = (some (offs, w), o2)) :
    afs_table_size = 0x80000 ∧
    (∀ x ∈ offs, 0x80000 ≤ x) ∧
    (files ≠ [] → offs.head? = some 0x80000) ∧
    (∀ x ∈ copy_file_cb_offsets sizes, 0x80000 ≤ x) ∧
    (sizes ≠ [] → (copy_file_cb_offsets sizes).head? = some 0x80000) ∧
    (sizes ≠ [] → ∀ x ∈ add_to_afs_offsets sizes newSizes, 0x80000 ≤ x) ∧
    (newSizes ≠ [] → (add_to_afs_offsets [] newSizes).head? = some 8) := by
  have hoffs := add_files_to_afs_run_offsets files 8 afs_table_size o offs w o2 h
  subst hoffs
  refine ⟨rfl, afs_copy_offsets_from_ge _ _ _ le_rfl, ?_, ?_, ?_, ?_, ?_⟩
  · intro hne
    cases files with
    | nil => exact absurd rfl hne
    | cons a l => rfl
  · exact afs_copy_offsets_from_ge _ _ _ le_rfl
  · intro hne
    cases sizes with
    | nil => exact absurd rfl hne
    | cons a l => rfl
  · intro hne x hx
    rw [add_to_afs_offsets, add_to_afs_wpos_after_scan, if_neg hne,
      copy_file_cb_offsets] at hx
    rcases List.mem_append.mp hx with hx | hx
    · exact afs_copy_offsets_from_ge _ _ _ le_rfl x hx
    · exact afs_copy_offsets_from_ge 0x80000 newSizes _
        (afs_copy_end_from_ge 0x80000 sizes afs_table_size le_rfl) x hx
  · intro hne
    cases newSizes with
    | nil => exact absurd rfl hne
    | cons a l => rfl

/-- Witness for `afs_payload_offsets_invariant`: creating from one 1-byte
file records offset 0x80000 = 524288 (next write position 526336);
appending one file to a one-entry source keeps both offsets at or above
0x80000; appending to a zero-entry source records offset 8. -/
theorem afs_payload_offsets_invariant_witness :
    afs_table_size = 0x80000 ∧
    (∀ x ∈ ([524288] : List Nat), 0x80000 ≤ x) ∧
    ([524288] : List Nat).head? = some 0x80000 ∧
    (∀ x ∈ copy_file_cb_offsets [1], 0x80000 ≤ x) ∧
    (copy_file_cb_offsets [1]).head? = some 0x80000 ∧
    (∀ x ∈ add_to_afs_offsets [1] [2], 0x80000 ≤ x) ∧
    (add_to_afs_offsets [] [2]).head? = some 8 := by
  have h := afs_payload_offsets_invariant [1] [] [] [524288] 526336 [1] [2] (by decide)
  exact ⟨h.1, h.2.1, h.2.2.1 (by decide), h.2.2.2.1, h.2.2.2.2.1 (by decide),
    h.2.2.2.2.2.1 (by decide), h.2.2.2.2.2.2 (by decide)⟩

/-- First-match update leaves a list with no matching name unchanged. -/
theorem gsl_update_entries_lib_id (target : String) (newEnt : GslFile) :
    ∀ es : List GslFile, (∀ e ∈ es, e.name ≠ target) →
      gsl_update_entries_lib target newEnt es = es := by
  intro es
  induction es with
  | nil => intro _; rfl
  | cons e rest ih =>
    intro h
    rw [gsl_update_entries_lib, if_neg (h e (by simp))]
    rw [ih fun x hx => h x (by simp [hx])]

/-- C7: a GSL update whose target name matches no entry still succeeds,
and the rebuilt archive holds exactly the original entries, unchanged
and in order — in both the scan-based tool (artool.c `copy_update`) and
the libpsoarchive-based tool (part_001 `gsl_update`); the replacement
file's content is never incorporated.  The run's success is shown on the
empty oracle (every I/O call succeeding): the return value never depends
on whether the target matched. -/
theorem gsl_update_target_not_found (target : String) (newEnt : GslFile) (es : List GslFile)
    (newsize : Nat) (ents : List (String × Nat)) (newBytes : List Nat) (fs : FS)
    (h : ∀ e ∈ es, e.name ≠ target) :
    gsl_update_entries_artool target newEnt es = es ∧
    gsl_update_entries_lib target newEnt es = es ∧
    (update_gsl_run target newsize ents newBytes [] fs).ret = 0 ∧
    (update_gsl_run target newsize ents newBytes [] fs).renamed = some true := by
  have hrun : update_gsl_run target newsize ents newBytes [] fs =
      ⟨0, ⟨some newBytes, false⟩, some true⟩ := by
    rw [update_gsl_run]
    rw [gsl_scan_run_nil _ (fun _ _ => rfl)]
    simp [take1, gsl_scan_run_nil _ (gsl_copy_update_cb_run_nil target newsize)]
  refine ⟨?_, gsl_update_entries_lib_id target newEnt es h, by rw [hrun], by rw [hrun]⟩
  rw [gsl_update_entries_artool]
  rw [List.map_congr_left fun e he => if_neg (h e he)]
  exact List.map_id es

/-- Witness for `gsl_update_target_not_found` on a one-entry archive that
does not contain the target name. -/
theorem gsl_update_target_not_found_witness :
    gsl_update_entries_artool "b" ⟨"c", [9]⟩ [⟨"a", [1]⟩] = [⟨"a", [1]⟩] ∧
    gsl_update_entries_lib "b" ⟨"c", [9]⟩ [⟨"a", [1]⟩] = [⟨"a", [1]⟩] ∧
    (update_gsl_run "b" 3 [("a", 1)] [] [] ⟨none, false⟩).ret = 0 ∧
    (update_gsl_run "b" 3 [("a", 1)] [] [] ⟨none, false⟩).renamed = some true :=
  gsl_update_target_not_found "b" ⟨"c", [9]⟩ [⟨"a", [1]⟩] 3 [("a", 1)] [] ⟨none, false⟩
    (by decide)

/-- C9: on an entry with an attached PVM (`pvm_csize = 2`) but parent
compressed size `csize = 1`, `extract_file` writes 1 byte (= `csize`) to
the `.pvm.prs` output — its sibling `decompress_file` reads
`pvm_csize = 2` bytes for the same sub-resource, matching the claim; the
extraction path does not. -/
theorem bml_extract_pvm_uses_parent_size :
    bml_extract_outputs [10, 11, 12, 13, 14, 15] ⟨"a", 1, 0, 0, 2, 0⟩ 0 1 =
      [("a.prs", [10]), ("a.pvm.prs", [11])] ∧
    ((bml_extract_outputs [10, 11, 12, 13, 14, 15] ⟨"a", 1, 0, 0, 2, 0⟩ 0 1).getD 1
        ("", [])).2.length = 1 ∧
    (⟨"a", 1, 0, 0, 2, 0⟩ : BmlEntry).pvm_csize = 2 ∧
    bml_decompress_read_sizes ⟨"a", 1, 0, 0, 2, 0⟩ = [1, 2] := by
  refine ⟨by decide, by decide, by decide, by decide⟩

/-! ## Round trip of the modelled PRS codec -/

/-- Interpreting a pure-literal token list appends those bytes. -/
theorem detokens_lits : ∀ (l out : List Nat), detokens out (l.map .lit) = some (out ++ l) := by
  intro l
  induction l with
  | nil => intro out; simp [detokens]
  | cons b r ih =>
    intro out
    rw [List.map_cons, detokens, ih]
    simp

/-- The backreference copy reproduces exactly the bytes the match length
guarantees. -/
theorem copyFrom_take (d : Nat) : ∀ (l : Nat) (out rest : List Nat),
    l ≤ matchLenAt out d rest → copyFrom out d l = out ++ rest.take l := by
  intro l
  induction l with
  | zero => intro out rest _; simp [copyFrom]
  | succ l ih =>
    intro out rest h
    cases rest with
    | nil => rw [matchLenAt] at h; omega
    | cons b rest' =>
      rw [matchLenAt] at h
      by_cases hb : out.getD (out.length - d) 0 = b
      · rw [if_pos hb] at h
        rw [copyFrom, hb, ih (out ++ [b]) rest' (by omega)]
        simp
      · rw [if_neg hb] at h
        omega

/-- The window search returns a distance within its bound, and a positive
reported length is exactly the match length at the returned distance. -/
theorem bestMatchGo_spec (out rest : List Nat) : ∀ D,
    (bestMatchGo out rest D).1 ≤ D ∧
    (1 ≤ (bestMatchGo out rest D).2 →
      1 ≤ (bestMatchGo out rest D).1 ∧
      (bestMatchGo out rest D).2 = matchLenAt out (bestMatchGo out rest D).1 rest) := by
  intro D
  induction D with
  | zero => simp [bestMatchGo]
  | succ D ih =>
    simp only [bestMatchGo]
    split
    · exact ⟨le_rfl, fun _ => ⟨by omega, rfl⟩⟩
    · exact ⟨le_trans ih.1 (Nat.le_succ D), ih.2⟩

/-- The distance `prsFindMatch` returns stays inside the produced output, and a positive
reported length is the true match length at the returned distance. -/
theorem prsFindMatch_spec (out rest : List Nat) :
    (prsFindMatch out rest).1 ≤ out.length ∧
    (1 ≤ (prsFindMatch out rest).2 →
      1 ≤ (prsFindMatch out rest).1 ∧
      (prsFindMatch out rest).2 = matchLenAt out (prsFindMatch out rest).1 rest) := by
  have h := bestMatchGo_spec out rest (min out.length 8192)
  rw [prsFindMatch]
  exact ⟨le_trans h.1 (min_le_left _ _), h.2⟩

/-- Interpreting the compressor's token stream reproduces the input
after any already-produced prefix. -/
theorem detokens_compressGo : ∀ (fuel : Nat) (out rest : List Nat),
    detokens out (compressGo fuel out rest) = some (out ++ rest) := by
  intro fuel
  induction fuel with
  | zero =>
    intro out rest
    cases rest with
    | nil => simp [compressGo, detokens]
    | cons b r => rw [compressGo]; exact detokens_lits (b :: r) out
  | succ f ih =>
    intro out rest
    cases rest with
    | nil => simp [compressGo, detokens]
    | cons b rest =>
      simp only [compressGo]
      by_cases h2 : 2 ≤ min (prsFindMatch out (b :: rest)).2 255
      · rw [if_pos h2, detokens]
        have hspec := prsFindMatch_spec out (b :: rest)
        have hpos : 1 ≤ (prsFindMatch out (b :: rest)).2 :=
          le_trans (by omega) (le_trans h2 (min_le_left _ _))
        obtain ⟨hd1, hml⟩ := hspec.2 hpos
        rw [if_pos ⟨hd1, hspec.1⟩]
        rw [copyFrom_take _ _ _ _ (le_trans (min_le_left _ _) (le_of_eq hml))]
        rw [ih (out ++ (b :: rest).take (min (prsFindMatch out (b :: rest)).2 255))
          ((b :: rest).drop (min (prsFindMatch out (b :: rest)).2 255))]
        simp [List.append_assoc]
      · rw [if_neg h2, detokens, ih (out ++ [b]) rest]
        simp

/-- The serialized stream is strictly longer than the token count (each
token spans at least one byte, plus the end marker). -/
theorem encodeTokens_length : ∀ ts : List PrsToken, ts.length < (encodeTokens ts).length := by
  intro ts
  induction ts with
  | nil => simp [encodeTokens]
  | cons t ts ih =>
    rw [encodeTokens]
    cases t <;> simp [encodeToken] <;> omega

/-- Parsing inverts serialization (with any fuel beyond the token
count). -/
theorem decodeGo_encodeTokens : ∀ (ts : List PrsToken) (fuel : Nat), ts.length < fuel →
    decodeGo fuel (encodeTokens ts) = some ts := by
  intro ts
  induction ts with
  | nil =>
    intro fuel h
    cases fuel with
    | zero => omega
    | succ f => rfl
  | cons t ts ih =>
    intro fuel h
    cases fuel with
    | zero => omega
    | succ f =>
      cases t with
      | lit b =>
        rw [encodeTokens, encodeToken, List.cons_append, List.cons_append, List.nil_append,
          decodeGo, ih f (by simp at h; omega)]
        rfl
      | ref d l =>
        rw [encodeTokens, encodeToken]
        simp only [List.cons_append, List.nil_append]
        rw [decodeGo, ih f (by simp at h; omega)]
        simp [Nat.mod_add_div]

/-- The keystream has the requested length. -/
theorem prc_keystream_length (key : Nat) : ∀ n, (prc_keystream key n).length = n := by
  intro n
  induction n generalizing key with
  | zero => rfl
  | succ n ih => simp [prc_keystream, ih]

/-- XOR-ing twice with the same keystream is the identity. -/
theorem zipWith_xor_cancel : ∀ ks c : List Nat, ks.length = c.length →
    List.zipWith Nat.xor ks (List.zipWith Nat.xor ks c) = c := by
  intro ks
  induction ks with
  | nil =>
    intro c h
    cases c with
    | nil => rfl
    | cons b c' => simp at h
  | cons k ks ih =>
    intro c h
    cases c with
    | nil => simp at h
    | cons b c' =>
      simp only [List.zipWith, List.cons.injEq]
      exact ⟨Nat.xor_cancel_left k b, ih c' (by simpa using h)⟩

/-- C2: `decompress(compress(x)) = x` for every byte sequence `x`
(including the empty one), for the unkeyed PRS codec and for the keyed
PRSD/PRC variant with the same key on both sides. -/
theorem prs_prc_roundtrip (x : List Nat) (key : Nat) :
    prs_decompress (prs_compress x) = some x ∧
    prc_decompress key (prc_compress key x) = some x := by
  have hmain : ∀ y : List Nat, prs_decompress (prs_compress y) = some y := by
    intro y
    rw [prs_decompress, prs_compress, decodeGo_encodeTokens _ _ (encodeTokens_length _)]
    simpa using detokens_compressGo y.length [] y
  refine ⟨hmain x, ?_⟩
  rw [prc_decompress, prc_compress]
  have hlen : (List.zipWith Nat.xor (prc_keystream key (prs_compress x).length)
      (prs_compress x)).length = (prs_compress x).length := by
    simp [prc_keystream_length]
  rw [hlen, zipWith_xor_cancel _ _ (prc_keystream_length key _)]
  exact hmain x

/-- C6: the key `prsd -c` passes to the compressor is the literal
`0xfeedface`, not the user's explicit key (here `0x12345678`) and not
the generated random key; and the key is never reported. -/
theorem prsd_key_ignored :
    (prsd_key_use (some 0x12345678) 0).keyPassed = 0xfeedface ∧
    (prsd_key_use (some 0x12345678) 0).keyPassed ≠ (prsd_key_use (some 0x12345678) 0).key ∧
    (prsd_key_use (some 0x12345678) 0).keyReported = false ∧
    (∀ uk rv, (prsd_key_use uk rv).keyPassed = 0xfeedface) := by
  exact ⟨by decide, by decide, by decide, fun uk rv => rfl⟩

end PsoTools
